import Mathlib

/-!
Verification of the Cross-Region Inference (CRIS) resolution engine of the
bedrock-models repository.

The embedding models:
* the catalog data (`ModelRec`, a list of model records keyed by id, mirroring
  the JSON object `bedrock_models.json` consumed by both the TypeScript
  library and the browser app);
* the TypeScript library functions `isModelAvailable`, `getAvailableRegions`,
  `hasGlobalProfile`, `getInferenceProfiles`, `getInferenceTypes`,
  `crisModelId`, `globalModelId` (packages/typescript/src/index.ts, appearing
  in src/docs/app.js lines 330-433);
* the browser app functions `hasInferenceType`, `hasCRIS`,
  `getInferenceTypes` (region-less union form), `populateCrisRegions` and the
  coverage filtering step of `showRegionMap` (src/unnamed/part_000).

JavaScript dictionaries (objects) are modelled as functions to `Option` when
only their map semantics matter (the aggregator accumulators), and as
association lists (`List (String × _)`) where the source iterates entries.
JavaScript `Set` objects are modelled as insertion-ordered duplicate-free
lists (`addSet` keeps the first occurrence, as `Set.add` does).  Thrown
`Error` values are modelled by the inductive `BmError`, one constructor per
distinct throw site, carrying the data interpolated into the message;
`errMessage` renders the exact message template of the source.
-/

/-- Profile topology as found in a model record: the GLOBAL shape is a flat
list of regions, the geo shape maps a source region to its target regions. -/
inductive Topology where
  | flat (regions : List String)
  | geo (sources : List (String × List String))
  deriving DecidableEq, Repr

/-- One model record of bedrock_models.json: `id`, `regions`,
`inference_types` (region to tag list), optional `inferenceProfile`
(modelled as a possibly empty entry list) and the lifecycle status. -/
structure ModelRec where
  id : String
  regions : List String
  inference_types : List (String × List String)
  inferenceProfile : List (String × Topology) := []
  model_lifecycle_status : String := "ACTIVE"
  deriving DecidableEq, Repr

/-- A catalog is the entry list of the bedrock_models.json object, in
iteration order. -/
abbrev Catalog : Type := List ModelRec

/-- Lookup in an association list, as JavaScript property access on an
object built from these entries (first matching key wins). -/
def alookup {α : Type} (l : List (String × α)) (k : String) : Option α :=
  (l.find? (fun p => p.1 == k)).map Prod.snd

/-- Lookup of a model record by id, as `data[id]` in the library or
`allModels.find(m => m.id === modelId)` in the app. -/
def findModel (cat : Catalog) (id : String) : Option ModelRec :=
  List.find? (fun m => m.id == id) cat

/-- Tag list recorded for a model at a region:
`model.inference_types[region] || []`. -/
def typesAt (m : ModelRec) (region : String) : List String :=
  (alookup m.inference_types region).getD []

/-- Error values thrown by the library, one constructor per throw site,
carrying the data interpolated into the thrown message. -/
inductive BmError where
  | modelNotFound (id : String)
  | unavailableRegion (id : String) (region : String) (regions : List String)
  | noCrisSupport (id : String) (region : String) (tags : List String)
  | noGlobalProfile (id : String) (region : String) (tags : List String)
  deriving DecidableEq, Repr

/-- Message rendered for each error, mirroring the template strings of the
source (src/docs/app.js lines 388, 392-394, 410-412, 420, 423-425,
428-430). -/
def errMessage : BmError → String
  | .modelNotFound id =>
      "Model ID \x27" ++ id ++ "\x27 not found in bedrock_models.json"
  | .unavailableRegion id region regions =>
      "Model \x27" ++ id ++ "\x27 is not available in region \x27" ++ region ++
        "\x27. Available regions: " ++ String.intercalate ", " regions
  | .noCrisSupport id region tags =>
      "Model \x27" ++ id ++ "\x27 does not support CRIS in region \x27" ++ region ++
        "\x27. Available inference types: " ++ String.intercalate ", " tags
  | .noGlobalProfile id region tags =>
      "Model \x27" ++ id ++ "\x27 does not support global inference profile in region \x27" ++
        region ++ "\x27. Available inference types: " ++ String.intercalate ", " tags

/-- Library `isModelAvailable` (src/docs/app.js lines 344-349): `false` for
an unknown id, else membership of `region` in the regions list. -/
def isModelAvailable (cat : Catalog) (modelId region : String) : Bool :=
  match findModel cat modelId with
  | none => false
  | some m => m.regions.contains region

/-- Library `getAvailableRegions` (src/docs/app.js lines 351-358): throws
for an unknown id, else returns the regions list. -/
def getAvailableRegions (cat : Catalog) (modelId : String) :
    Except BmError (List String) :=
  match findModel cat modelId with
  | none => .error (.modelNotFound modelId)
  | some m => .ok m.regions

/-- Library `hasGlobalProfile` (src/docs/app.js lines 360-366): `false` for
an unknown id, else whether GLOBAL is among the tags recorded at `region`;
no availability check against the regions list. -/
def hasGlobalProfile (cat : Catalog) (modelId region : String) : Bool :=
  match findModel cat modelId with
  | none => false
  | some m => (typesAt m region).contains "GLOBAL"

/-- The fixed prefix vocabulary of `getInferenceProfiles`
(src/docs/app.js line 373). -/
def profileVocabulary : List String :=
  ["US", "EU", "CA", "JP", "AU", "APAC", "AP", "GLOBAL"]

/-- Library `getInferenceProfiles` (src/docs/app.js lines 368-375): `[]` for
an unknown id, else the tags at `region` filtered to the profile
vocabulary. -/
def getInferenceProfiles (cat : Catalog) (modelId region : String) : List String :=
  match findModel cat modelId with
  | none => []
  | some m => (typesAt m region).filter (fun t => profileVocabulary.contains t)

/-- Library `getInferenceTypes` (src/docs/app.js lines 377-382): `[]` for an
unknown id, else the tags recorded at `region` (empty when absent). -/
def getInferenceTypes (cat : Catalog) (modelId region : String) : List String :=
  match findModel cat modelId with
  | none => []
  | some m => typesAt m region

/-- JavaScript `toLowerCase()` on a tag, as a character-wise map over the
string data. -/
def lowerString (s : String) : String :=
  String.mk (s.data.map Char.toLower)

/-- The geo-tag test of `crisModelId` (src/docs/app.js line 400): any tag
other than GLOBAL, ON_DEMAND, PROVISIONED. -/
def isGeoTag (t : String) : Bool :=
  t != "GLOBAL" && t != "ON_DEMAND" && t != "PROVISIONED"

/-- Library `crisModelId` (src/docs/app.js lines 384-413): model lookup,
availability check, then the first geo tag lowercased as prefix, else the
global prefix when GLOBAL is present, else the no-CRIS-support error. -/
def crisModelId (cat : Catalog) (modelId region : String) :
    Except BmError String :=
  match findModel cat modelId with
  | none => .error (.modelNotFound modelId)
  | some m =>
    if m.regions.contains region then
      let inferenceTypes := typesAt m region
      match inferenceTypes.filter isGeoTag with
      | g :: _ => .ok (lowerString g ++ "." ++ modelId)
      | [] =>
        if inferenceTypes.contains "GLOBAL" then
          .ok ("global." ++ modelId)
        else
          .error (.noCrisSupport modelId region inferenceTypes)
    else
      .error (.unavailableRegion modelId region m.regions)

/-- Library `globalModelId` (src/docs/app.js lines 415-433): succeeds with
the global prefix exactly when `hasGlobalProfile` holds, otherwise throws
the most specific error (unknown model, unavailable region, or no global
profile). -/
def globalModelId (cat : Catalog) (modelId region : String) :
    Except BmError String :=
  if hasGlobalProfile cat modelId region then
    .ok ("global." ++ modelId)
  else
    match findModel cat modelId with
    | none => .error (.modelNotFound modelId)
    | some m =>
      if m.regions.contains region then
        .error (.noGlobalProfile modelId region (typesAt m region))
      else
        .error (.unavailableRegion modelId region m.regions)

/-- App-side `hasInferenceType` (src/unnamed/part_000 lines 339-344): with a
region argument it checks the tags recorded at that region (a region absent
from `inference_types` yields a falsy `undefined`, modelled as `false`);
without one it checks every recorded tag list. -/
def hasInferenceType (m : ModelRec) (type : String) (region : Option String) :
    Bool :=
  match region with
  | some r =>
    match alookup m.inference_types r with
    | none => false
    | some ts => ts.contains type
  | none => m.inference_types.any (fun p => p.2.contains type)

/-- The CRIS tag vocabulary: keys of `CRIS_REGIONS`
(src/unnamed/part_000 lines 5-13). -/
def crisTagVocabulary : List String :=
  ["GLOBAL", "US", "EU", "APAC", "JP", "AU", "CA"]

/-- App-side `hasCRIS` (src/unnamed/part_000 lines 346-355): whether at
least one tag of the CRIS vocabulary is recorded for the model at the given
region (or at any region, when the region argument is absent). -/
def hasCRIS (m : ModelRec) (region : Option String) : Bool :=
  match region with
  | some r =>
    match alookup m.inference_types r with
    | none => false
    | some ts => ts.any (fun t => crisTagVocabulary.contains t)
  | none =>
    m.inference_types.any (fun p =>
      p.2.any (fun t => crisTagVocabulary.contains t))

/-- One `Set.add` step on a JavaScript Set modelled as an insertion-ordered
duplicate-free list: adding a member is a no-op, otherwise the element is
appended. -/
def addSet (s : List String) (x : String) : List String :=
  if x ∈ s then s else s ++ [x]

/-- Adding every element of a list to a Set (`forEach(x => set.add(x))`). -/
def addAll (s rs : List String) : List String :=
  rs.foldl addSet s

/-- App-side region-less `getInferenceTypes` (src/unnamed/part_000 lines
376-382): the union of the tags across every `inference_types` entry of the
model, in first-occurrence order (a JavaScript Set converted to an
array). -/
def getInferenceTypesAll (m : ModelRec) : List String :=
  m.inference_types.foldl (fun acc p => addAll acc p.2) []

/-- Well-formedness of a record per the data-model invariant: every region
key of `inference_types` is listed in `regions`. -/
def regionKeysWF (m : ModelRec) : Prop :=
  ∀ p ∈ m.inference_types, p.1 ∈ m.regions

theorem mem_addSet {s : List String} {x y : String} :
    y ∈ addSet s x ↔ y ∈ s ∨ y = x := by
  unfold addSet
  split
  · rename_i h
    constructor
    · exact Or.inl
    · rintro (hy | rfl)
      · exact hy
      · exact h
  · simp

theorem nodup_addSet {s : List String} (h : s.Nodup) (x : String) :
    (addSet s x).Nodup := by
  unfold addSet
  split
  · exact h
  · rename_i hx
    simpa [List.nodup_append] using ⟨h, fun hy => hx hy⟩

theorem mem_addAll {rs : List String} {s : List String} {y : String} :
    y ∈ addAll s rs ↔ y ∈ s ∨ y ∈ rs := by
  induction rs generalizing s with
  | nil => simp [addAll]
  | cons r rs ih =>
    show y ∈ addAll (addSet s r) rs ↔ _
    rw [ih, mem_addSet]
    simp [or_assoc]

theorem nodup_addAll {rs s : List String} (h : s.Nodup) :
    (addAll s rs).Nodup := by
  induction rs generalizing s with
  | nil => exact h
  | cons r rs ih => exact ih (nodup_addSet h r)

theorem alookup_eq_none_of_keysWF {m : ModelRec} (hwf : regionKeysWF m)
    {region : String} (hr : region ∉ m.regions) :
    alookup m.inference_types region = none := by
  unfold alookup
  cases hfind : m.inference_types.find? (fun p => p.1 == region) with
  | none => rfl
  | some p =>
    have hp := List.find?_some hfind
    have hmem := List.mem_of_find?_eq_some hfind
    have : p.1 = region := by simpa using hp
    exact absurd (this ▸ hwf p hmem) hr

/-- CLAIM C1: for a model known to the catalog and a region in its regions
set, when the recorded tag set holds at least one geo tag (a tag other than
GLOBAL, ON_DEMAND, PROVISIONED) and also GLOBAL, `crisModelId` returns the
geo-prefixed identifier — a lowercased geo tag, a dot, and the model id —
produced by the geo branch, not the global one. -/
theorem crisModelId_geo_priority (cat : Catalog) (id region : String)
    (m : ModelRec) (hm : findModel cat id = some m) (hr : region ∈ m.regions)
    (hgeo : ∃ t ∈ typesAt m region, isGeoTag t = true)
    (_hglob : "GLOBAL" ∈ typesAt m region) :
    ∃ g ∈ typesAt m region, isGeoTag g = true ∧
      crisModelId cat id region = .ok (lowerString g ++ "." ++ id) := by
  obtain ⟨t, ht, hgt⟩ := hgeo
  have hne : (typesAt m region).filter isGeoTag ≠ [] := by
    intro hcon
    have : t ∈ (typesAt m region).filter isGeoTag :=
      List.mem_filter.mpr ⟨ht, hgt⟩
    simp [hcon] at this
  cases hfe : (typesAt m region).filter isGeoTag with
  | nil => exact absurd hfe hne
  | cons g rest =>
    have hg : g ∈ (typesAt m region).filter isGeoTag := by
      rw [hfe]; exact List.mem_cons_self g rest
    refine ⟨g, (List.mem_filter.mp hg).1, (List.mem_filter.mp hg).2, ?_⟩
    simp only [crisModelId, hm]
    rw [if_pos (by simpa using hr)]
    simp [hfe]

/-- Witness for C1 at a concrete catalog: the Sonnet model in us-east-1 with
tags US, ON_DEMAND and GLOBAL resolves through a geo tag. -/
def sonnetModel : ModelRec :=
  { id := "anthropic.claude-3-5-sonnet-20241022-v2:0"
    regions := ["us-east-1"]
    inference_types := [("us-east-1", ["US", "ON_DEMAND", "GLOBAL"])] }

theorem crisModelId_geo_priority_witness :
    ∃ g ∈ typesAt sonnetModel "us-east-1", isGeoTag g = true ∧
      crisModelId [sonnetModel] "anthropic.claude-3-5-sonnet-20241022-v2:0"
        "us-east-1" =
        .ok (lowerString g ++ "." ++ "anthropic.claude-3-5-sonnet-20241022-v2:0") :=
  crisModelId_geo_priority [sonnetModel]
    "anthropic.claude-3-5-sonnet-20241022-v2:0" "us-east-1" sonnetModel
    (by decide) (by decide) ⟨"US", by decide, by decide⟩ (by decide)

/-- A model recording two geo tags at the same region, the lexicographically
smaller one second. -/
def twoGeoModel : ModelRec :=
  { id := "prov.model-v1:0"
    regions := ["r1"]
    inference_types := [("r1", ["US", "EU"])] }

/-- CLAIM C2, counterexample: with tags recorded in the order US, EU the
source picks US (the first recorded geo tag), although EU is the
lexicographically smallest geo tag present, so the claimed result eu-prefixed
identifier is not returned. -/
theorem crisModelId_not_lex_smallest :
    crisModelId [twoGeoModel] "prov.model-v1:0" "r1" =
      .ok "us.prov.model-v1:0"
    ∧ ("EU" ∈ typesAt twoGeoModel "r1" ∧ isGeoTag "EU" = true
        ∧ ∀ t ∈ typesAt twoGeoModel "r1", isGeoTag t = true → "EU" ≤ t)
    ∧ crisModelId [twoGeoModel] "prov.model-v1:0" "r1" ≠
        .ok (lowerString "EU" ++ "." ++ "prov.model-v1:0") := by
  refine ⟨rfl, ⟨by decide, by decide, ?_⟩, ?_⟩
  · intro t ht _
    fin_cases ht
    all_goals rw [String.le_iff_toList_le]
    all_goals decide
  · intro h
    have := Except.ok.inj h
    revert this
    decide

/-- CLAIM C2 as amended: when the tag list recorded at the region, filtered
by the geo-tag test, starts with `g`, `crisModelId` returns `g` lowercased,
a dot, and the model id — the first recorded geo tag, not the
lexicographically smallest. -/
theorem crisModelId_first_geo (cat : Catalog) (id region : String)
    (m : ModelRec) (g : String) (rest : List String)
    (hm : findModel cat id = some m) (hr : region ∈ m.regions)
    (hf : (typesAt m region).filter isGeoTag = g :: rest) :
    crisModelId cat id region = .ok (lowerString g ++ "." ++ id) := by
  simp only [crisModelId, hm]
  rw [if_pos (by simpa using hr)]
  simp [hf]

theorem crisModelId_first_geo_witness :
    crisModelId [twoGeoModel] "prov.model-v1:0" "r1" =
      .ok (lowerString "US" ++ "." ++ "prov.model-v1:0") :=
  crisModelId_first_geo [twoGeoModel] "prov.model-v1:0" "r1" twoGeoModel
    "US" ["EU"] (by decide) (by decide) (by decide)

/-- CLAIM C3: for a model known to the catalog and a region in its regions
set, when no geo tag and no GLOBAL tag is recorded there, `crisModelId`
fails with the no-CRIS-support error carrying the model id, the region and
the recorded tag list — the rendered message naming all three — and
`hasCRIS` at that region is false. -/
theorem crisModelId_no_support (cat : Catalog) (id region : String)
    (m : ModelRec) (hm : findModel cat id = some m) (hr : region ∈ m.regions)
    (hnogeo : ∀ t ∈ typesAt m region, isGeoTag t = false)
    (hnoglob : "GLOBAL" ∉ typesAt m region) :
    crisModelId cat id region =
      .error (.noCrisSupport id region (typesAt m region))
    ∧ errMessage (.noCrisSupport id region (typesAt m region)) =
        "Model \x27" ++ id ++ "\x27 does not support CRIS in region \x27" ++
          region ++ "\x27. Available inference types: " ++
          String.intercalate ", " (typesAt m region)
    ∧ hasCRIS m (some region) = false := by
  have hodp : ∀ t ∈ typesAt m region, t = "ON_DEMAND" ∨ t = "PROVISIONED" := by
    intro t ht
    have := hnogeo t ht
    simp only [isGeoTag, Bool.and_eq_false_iff, bne_eq_false_iff_eq] at this
    rcases this with (h | h) | h
    · exact absurd (h ▸ ht) hnoglob
    · exact Or.inl h
    · exact Or.inr h
  refine ⟨?_, rfl, ?_⟩
  · have hfe : (typesAt m region).filter isGeoTag = [] := by
      rw [List.filter_eq_nil_iff]
      intro t ht
      simp [hnogeo t ht]
    simp only [crisModelId, hm]
    rw [if_pos (by simpa using hr)]
    simp only [hfe]
    rw [if_neg (by simpa using hnoglob)]
  · simp only [hasCRIS]
    cases hl : alookup m.inference_types region with
    | none => rfl
    | some ts =>
      have hts : ts = typesAt m region := by simp [typesAt, hl]
      simp only [List.any_eq_false]
      intro t ht
      rcases hodp t (hts ▸ ht) with rfl | rfl <;> decide

/-- Witness model for C3: ON_DEMAND only. -/
def onDemandOnlyModel : ModelRec :=
  { id := "prov.plain-v1:0"
    regions := ["r1"]
    inference_types := [("r1", ["ON_DEMAND"])] }

theorem crisModelId_no_support_witness :
    crisModelId [onDemandOnlyModel] "prov.plain-v1:0" "r1" =
      .error (.noCrisSupport "prov.plain-v1:0" "r1"
        (typesAt onDemandOnlyModel "r1"))
    ∧ errMessage (.noCrisSupport "prov.plain-v1:0" "r1"
        (typesAt onDemandOnlyModel "r1")) =
        "Model \x27" ++ "prov.plain-v1:0" ++
          "\x27 does not support CRIS in region \x27" ++ "r1" ++
          "\x27. Available inference types: " ++
          String.intercalate ", " (typesAt onDemandOnlyModel "r1")
    ∧ hasCRIS onDemandOnlyModel (some "r1") = false :=
  crisModelId_no_support [onDemandOnlyModel] "prov.plain-v1:0" "r1"
    onDemandOnlyModel (by decide) (by decide)
    (by intro t ht; fin_cases ht; decide) (by decide)

theorem hasGlobalProfile_of_found {cat : Catalog} {id : String}
    {m : ModelRec} (hm : findModel cat id = some m) (region : String) :
    hasGlobalProfile cat id region = (typesAt m region).contains "GLOBAL" := by
  simp [hasGlobalProfile, hm]

/-- CLAIM C4: for a model known to the catalog, `isModelAvailable` is true
exactly when the region is in its regions set; `crisModelId` with a region
outside that set fails with the unavailable-region error carrying the
attempted region and the actual region list, and so does `globalModelId`
for a record whose `inference_types` keys respect the regions invariant. -/
theorem availability_correct (cat : Catalog) (id region : String)
    (m : ModelRec) (hm : findModel cat id = some m) :
    (isModelAvailable cat id region = true ↔ region ∈ m.regions)
    ∧ (region ∉ m.regions →
        crisModelId cat id region =
          .error (.unavailableRegion id region m.regions))
    ∧ (regionKeysWF m → region ∉ m.regions →
        globalModelId cat id region =
          .error (.unavailableRegion id region m.regions)) := by
  refine ⟨?_, ?_, ?_⟩
  · simp [isModelAvailable, hm]
  · intro hr
    simp only [crisModelId, hm]
    rw [if_neg (by simpa using hr)]
  · intro hwf hr
    have hts : typesAt m region = [] := by
      simp [typesAt, alookup_eq_none_of_keysWF hwf hr]
    simp only [globalModelId, hasGlobalProfile_of_found hm, hts]
    rw [if_neg (by decide)]
    simp only [hm]
    rw [if_neg (by simpa using hr)]

/-- Witness model for C4: available in r1 only, queried at r2. -/
def singleRegionModel : ModelRec :=
  { id := "prov.single-v1:0"
    regions := ["r1"]
    inference_types := [("r1", ["US"])] }

theorem availability_correct_witness :
    ((isModelAvailable [singleRegionModel] "prov.single-v1:0" "r2" = true ↔
        "r2" ∈ singleRegionModel.regions)
      ∧ ("r2" ∉ singleRegionModel.regions →
          crisModelId [singleRegionModel] "prov.single-v1:0" "r2" =
            .error (.unavailableRegion "prov.single-v1:0" "r2"
              singleRegionModel.regions))
      ∧ (regionKeysWF singleRegionModel → "r2" ∉ singleRegionModel.regions →
          globalModelId [singleRegionModel] "prov.single-v1:0" "r2" =
            .error (.unavailableRegion "prov.single-v1:0" "r2"
              singleRegionModel.regions))) :=
  availability_correct [singleRegionModel] "prov.single-v1:0" "r2"
    singleRegionModel (by decide)

/-- CLAIM C5: for a model known to the catalog, `globalModelId` fails with
the unavailable-region error when the region is outside the regions set
(for a record respecting the regions invariant), fails with the
no-global-profile error when the region is valid but GLOBAL is not recorded
there, and succeeds with the global prefix when GLOBAL is recorded there. -/
theorem globalModelId_correct (cat : Catalog) (id region : String)
    (m : ModelRec) (hm : findModel cat id = some m) :
    (regionKeysWF m → region ∉ m.regions →
        globalModelId cat id region =
          .error (.unavailableRegion id region m.regions))
    ∧ (region ∈ m.regions → "GLOBAL" ∉ typesAt m region →
        globalModelId cat id region =
          .error (.noGlobalProfile id region (typesAt m region)))
    ∧ ("GLOBAL" ∈ typesAt m region →
        globalModelId cat id region = .ok ("global." ++ id)) := by
  refine ⟨fun hwf hr => (availability_correct cat id region m hm).2.2 hwf hr,
    ?_, ?_⟩
  · intro hr hng
    simp only [globalModelId, hasGlobalProfile_of_found hm]
    rw [if_neg (by simpa using hng)]
    simp only [hm]
    rw [if_pos (by simpa using hr)]
  · intro hg
    simp only [globalModelId, hasGlobalProfile_of_found hm]
    rw [if_pos (by simpa using hg)]

/-- Witness model for C5: GLOBAL recorded in r1, nothing in r2. -/
def globalOnlyModel : ModelRec :=
  { id := "prov.glob-v1:0"
    regions := ["r1", "r2"]
    inference_types := [("r1", ["GLOBAL"]), ("r2", ["ON_DEMAND"])] }

theorem globalModelId_correct_witness :
    ((regionKeysWF globalOnlyModel → "r3" ∉ globalOnlyModel.regions →
        globalModelId [globalOnlyModel] "prov.glob-v1:0" "r3" =
          .error (.unavailableRegion "prov.glob-v1:0" "r3"
            globalOnlyModel.regions))
      ∧ ("r3" ∈ globalOnlyModel.regions →
          "GLOBAL" ∉ typesAt globalOnlyModel "r3" →
          globalModelId [globalOnlyModel] "prov.glob-v1:0" "r3" =
            .error (.noGlobalProfile "prov.glob-v1:0" "r3"
              (typesAt globalOnlyModel "r3")))
      ∧ ("GLOBAL" ∈ typesAt globalOnlyModel "r3" →
          globalModelId [globalOnlyModel] "prov.glob-v1:0" "r3" =
            .ok ("global." ++ "prov.glob-v1:0"))) :=
  globalModelId_correct [globalOnlyModel] "prov.glob-v1:0" "r3"
    globalOnlyModel (by decide)

/-- CLAIM C6, counterexample: at an empty catalog the id is unknown, yet
`isModelAvailable` and `hasGlobalProfile` return `false` and
`getInferenceProfiles` and `getInferenceTypes` return `[]` — sentinel
values, not a model-not-found failure. -/
theorem unknown_model_sentinels :
    findModel [] "nope.model-v1:0" = none
    ∧ isModelAvailable [] "nope.model-v1:0" "us-east-1" = false
    ∧ hasGlobalProfile [] "nope.model-v1:0" "us-east-1" = false
    ∧ getInferenceProfiles [] "nope.model-v1:0" "us-east-1" = []
    ∧ getInferenceTypes [] "nope.model-v1:0" "us-east-1" = [] := by
  refine ⟨rfl, rfl, rfl, rfl, rfl⟩

/-- CLAIM C6 as amended: for an unknown model id, `getAvailableRegions`,
`crisModelId` and `globalModelId` fail with the model-not-found error,
while `isModelAvailable` and `hasGlobalProfile` return `false` and
`getInferenceProfiles` and `getInferenceTypes` return the empty list. -/
theorem unknown_model_behaviour (cat : Catalog) (id : String)
    (h : findModel cat id = none) (region : String) :
    getAvailableRegions cat id = .error (.modelNotFound id)
    ∧ crisModelId cat id region = .error (.modelNotFound id)
    ∧ globalModelId cat id region = .error (.modelNotFound id)
    ∧ isModelAvailable cat id region = false
    ∧ hasGlobalProfile cat id region = false
    ∧ getInferenceProfiles cat id region = []
    ∧ getInferenceTypes cat id region = [] := by
  have hg : hasGlobalProfile cat id region = false := by
    simp [hasGlobalProfile, h]
  refine ⟨?_, ?_, ?_, ?_, hg, ?_, ?_⟩
  · simp [getAvailableRegions, h]
  · simp [crisModelId, h]
  · simp only [globalModelId, hg]
    rw [if_neg (by decide)]
    simp [h]
  · simp [isModelAvailable, h]
  · simp [getInferenceProfiles, h]
  · simp [getInferenceTypes, h]

theorem unknown_model_behaviour_witness :
    (getAvailableRegions [] "nope.model-v1:0" =
        .error (.modelNotFound "nope.model-v1:0")
      ∧ crisModelId [] "nope.model-v1:0" "us-east-1" =
          .error (.modelNotFound "nope.model-v1:0")
      ∧ globalModelId [] "nope.model-v1:0" "us-east-1" =
          .error (.modelNotFound "nope.model-v1:0")
      ∧ isModelAvailable [] "nope.model-v1:0" "us-east-1" = false
      ∧ hasGlobalProfile [] "nope.model-v1:0" "us-east-1" = false
      ∧ getInferenceProfiles [] "nope.model-v1:0" "us-east-1" = []
      ∧ getInferenceTypes [] "nope.model-v1:0" "us-east-1" = []) :=
  unknown_model_behaviour [] "nope.model-v1:0" rfl "us-east-1"

theorem mem_foldl_addAll (l : List (String × List String))
    (acc : List String) (x : String) :
    x ∈ l.foldl (fun acc p => addAll acc p.2) acc ↔
      x ∈ acc ∨ ∃ p ∈ l, x ∈ p.2 := by
  induction l generalizing acc with
  | nil => simp
  | cons q l ih =>
    simp only [List.foldl_cons, ih, mem_addAll, List.mem_cons]
    constructor
    · rintro ((hx | hx) | ⟨p, hp, hx⟩)
      · exact Or.inl hx
      · exact Or.inr ⟨q, Or.inl rfl, hx⟩
      · exact Or.inr ⟨p, Or.inr hp, hx⟩
    · rintro (hx | ⟨p, (rfl | hp), hx⟩)
      · exact Or.inl (Or.inl hx)
      · exact Or.inl (Or.inr hx)
      · exact Or.inr ⟨p, hp, hx⟩

/-- CLAIM C9: for a model known to the catalog, `getInferenceTypes` with a
region returns exactly the tag list recorded there and the empty list when
there is no entry; the region-less app form returns the union of the tags
across every recorded region; and `hasInferenceType` answers membership
over those same two sets. -/
theorem typesFor_correct (cat : Catalog) (id : String) (m : ModelRec)
    (hm : findModel cat id = some m) (region : String) :
    (∀ ts, alookup m.inference_types region = some ts →
        getInferenceTypes cat id region = ts)
    ∧ (alookup m.inference_types region = none →
        getInferenceTypes cat id region = [])
    ∧ (∀ x, x ∈ getInferenceTypesAll m ↔ ∃ p ∈ m.inference_types, x ∈ p.2)
    ∧ (∀ t, hasInferenceType m t (some region) = true ↔ t ∈ typesAt m region)
    ∧ (∀ t, hasInferenceType m t none = true ↔
        ∃ p ∈ m.inference_types, t ∈ p.2) := by
  refine ⟨?_, ?_, ?_, ?_, ?_⟩
  · intro ts hts
    simp [getInferenceTypes, hm, typesAt, hts]
  · intro hts
    simp [getInferenceTypes, hm, typesAt, hts]
  · intro x
    simpa [getInferenceTypesAll] using mem_foldl_addAll m.inference_types [] x
  · intro t
    simp only [hasInferenceType, typesAt]
    cases hl : alookup m.inference_types region with
    | none => simp
    | some ts => simp
  · intro t
    simp [hasInferenceType, List.any_eq_true]

/-- Witness model for C9: two regions with overlapping tag lists. -/
def twoRegionModel : ModelRec :=
  { id := "prov.duo-v1:0"
    regions := ["r1", "r2"]
    inference_types := [("r1", ["US", "ON_DEMAND"]), ("r2", ["ON_DEMAND"])] }

theorem typesFor_correct_witness :
    ((∀ ts, alookup twoRegionModel.inference_types "r1" = some ts →
        getInferenceTypes [twoRegionModel] "prov.duo-v1:0" "r1" = ts)
      ∧ (alookup twoRegionModel.inference_types "r1" = none →
          getInferenceTypes [twoRegionModel] "prov.duo-v1:0" "r1" = [])
      ∧ (∀ x, x ∈ getInferenceTypesAll twoRegionModel ↔
          ∃ p ∈ twoRegionModel.inference_types, x ∈ p.2)
      ∧ (∀ t, hasInferenceType twoRegionModel t (some "r1") = true ↔
          t ∈ typesAt twoRegionModel "r1")
      ∧ (∀ t, hasInferenceType twoRegionModel t none = true ↔
          ∃ p ∈ twoRegionModel.inference_types, t ∈ p.2)) :=
  typesFor_correct [twoRegionModel] "prov.duo-v1:0" twoRegionModel
    (by decide) "r1"

/-- A model recording GLOBAL at a region absent from its regions list. -/
def offRegionModel : ModelRec :=
  { id := "prov.off-v1:0"
    regions := ["r1"]
    inference_types := [("r2", ["GLOBAL"])] }

/-- CLAIM C10: for a model known to the catalog, `hasGlobalProfile` is true
exactly when GLOBAL is among the tags recorded at the region; it performs
no availability check, so on a concrete record it returns true at a region
absent from the regions set. -/
theorem hasGlobalProfile_correct :
    (∀ (cat : Catalog) (id region : String) (m : ModelRec),
        findModel cat id = some m →
        (hasGlobalProfile cat id region = true ↔
          "GLOBAL" ∈ typesAt m region))
    ∧ (findModel [offRegionModel] "prov.off-v1:0" = some offRegionModel
        ∧ hasGlobalProfile [offRegionModel] "prov.off-v1:0" "r2" = true
        ∧ "r2" ∉ offRegionModel.regions) := by
  refine ⟨?_, by decide, by decide, by decide⟩
  intro cat id region m hm
  rw [hasGlobalProfile_of_found hm]
  simp

theorem hasGlobalProfile_correct_witness :
    hasGlobalProfile [offRegionModel] "prov.off-v1:0" "r2" = true ↔
      "GLOBAL" ∈ typesAt offRegionModel "r2" :=
  hasGlobalProfile_correct.1 ([offRegionModel]) "prov.off-v1:0" "r2"
    offRegionModel (by decide)

/-- The accumulating source map of `populateCrisRegions` for one geo
profile: a JavaScript object from source region to a Set of targets,
modelled by its map semantics. -/
def GeoAcc : Type := String → Option (List String)

/-- One source entry merged into the source map
(src/unnamed/part_000 lines 1046-1051): the target Set for the source is
created when absent, then every target is added. -/
def stepGeoSrc (g : GeoAcc) (e : String × List String) : GeoAcc :=
  fun k => if k = e.1 then some (addAll ((g e.1).getD []) e.2) else g k

/-- The accumulator value of `populateCrisRegions` for one profile name:
either a region Set (GLOBAL shape) or a source map (geo shape). -/
inductive AccEntry where
  | fs (s : List String)
  | gs (g : GeoAcc)

/-- Merging one topology contribution into a profile's accumulator entry
(src/unnamed/part_000 lines 1030-1052).  In the two mismatched-shape cases
the source misbehaves (a flat list against an existing source map calls
`Set.add` on a plain object and throws; a source map against an existing
Set stores properties invisible to the final conversion); both are modelled
as keeping the entry, and both are unreachable under the shape-consistency
contract assumed by every theorem below. -/
def mergeTopo (e : Option AccEntry) : Topology → AccEntry
  | .flat rs =>
    match e with
    | none => .fs (addAll [] rs)
    | some (.fs s) => .fs (addAll s rs)
    | some (.gs g) => .gs g
  | .geo srcs =>
    match e with
    | none => .gs (srcs.foldl stepGeoSrc (fun _ => none))
    | some (.gs g) => .gs (srcs.foldl stepGeoSrc g)
    | some (.fs s) => .fs s

/-- The whole accumulator: profile name to entry, the `regionSets` object of
the source modelled by its map semantics. -/
def ProfAcc : Type := String → Option AccEntry

/-- One `(profile, topology)` entry of a model merged into the accumulator. -/
def stepProf (acc : ProfAcc) (pt : String × Topology) : ProfAcc :=
  fun k => if k = pt.1 then some (mergeTopo (acc pt.1) pt.2) else acc k

/-- One model merged into the accumulator: every entry of its
`inferenceProfile` in order. -/
def stepModel (acc : ProfAcc) (m : ModelRec) : ProfAcc :=
  m.inferenceProfile.foldl stepProf acc

/-- The accumulation pass of `populateCrisRegions` over the whole catalog. -/
def aggAcc (cat : Catalog) : ProfAcc :=
  cat.foldl stepModel (fun _ => none)

/-- The conversion `Array.from(set).sort()` of the source: the Set's
insertion-ordered duplicate-free list, sorted. -/
def sortRegions (s : List String) : List String :=
  s.insertionSort (· ≤ ·)

/-- A finalized coverage-map entry: a sorted flat region list (GLOBAL
shape) or a source map with sorted target lists (geo shape). -/
inductive CoverageEntry where
  | flat (regions : List String)
  | geo (g : String → Option (List String))

/-- The conversion step of `populateCrisRegions`
(src/unnamed/part_000 lines 1057-1070). -/
def finalizeEntry : AccEntry → CoverageEntry
  | .fs s => .flat (sortRegions s)
  | .gs g => .geo (fun src => (g src).map sortRegions)

/-- App `populateCrisRegions` (src/unnamed/part_000 lines 1025-1073): the
derived `CRIS_PROFILE_REGIONS` map from profile name to coverage entry. -/
def populateCrisRegions (cat : Catalog) : String → Option CoverageEntry :=
  fun p => (aggAcc cat p).map finalizeEntry

/-- Shape of a topology contribution: `true` for the flat GLOBAL shape. -/
def topoIsFlat : Topology → Bool
  | .flat _ => true
  | .geo _ => false

/-- Shape consistency of a catalog with respect to a shape assignment: every
contribution to a profile name has the shape assigned to that name.  This is
the input-data contract of the aggregator (a profile name is either GLOBAL-
shaped or geo-shaped across all models). -/
def CatOk (σ : String → Bool) (cat : Catalog) : Prop :=
  ∀ m ∈ cat, ∀ pt ∈ m.inferenceProfile, topoIsFlat pt.2 = σ pt.1

/-- Invariant: the accumulator respects the shape assignment. -/
def AccOk (σ : String → Bool) (acc : ProfAcc) : Prop :=
  ∀ p, (∀ s, acc p = some (.fs s) → σ p = true) ∧
    (∀ g, acc p = some (.gs g) → σ p = false)

/-- Invariant: every Set accumulated so far is duplicate-free. -/
def AccNodup (acc : ProfAcc) : Prop :=
  ∀ p, (∀ s, acc p = some (.fs s) → s.Nodup) ∧
    (∀ g, acc p = some (.gs g) → ∀ k l, g k = some l → l.Nodup)

theorem stepGeoSrc_isSome (g : GeoAcc) (e : String × List String)
    (k : String) :
    ((stepGeoSrc g e) k).isSome = true ↔ (g k).isSome = true ∨ k = e.1 := by
  unfold stepGeoSrc
  by_cases hk : k = e.1 <;> simp [hk]

theorem stepGeoSrc_mem (g : GeoAcc) (e : String × List String)
    (k t : String) :
    t ∈ ((stepGeoSrc g e) k).getD [] ↔
      t ∈ (g k).getD [] ∨ (k = e.1 ∧ t ∈ e.2) := by
  unfold stepGeoSrc
  by_cases hk : k = e.1
  · subst hk
    simp [mem_addAll]
  · simp [hk]

theorem isSome_foldGeo (srcs : List (String × List String)) (g : GeoAcc)
    (k : String) :
    ((srcs.foldl stepGeoSrc g) k).isSome = true ↔
      (g k).isSome = true ∨ ∃ ts, (k, ts) ∈ srcs := by
  induction srcs generalizing g with
  | nil => simp
  | cons e rest ih =>
    rw [List.foldl_cons, ih, stepGeoSrc_isSome]
    constructor
    · rintro ((hg | hk) | ⟨ts, hts⟩)
      · exact Or.inl hg
      · exact Or.inr ⟨e.2, by simp [hk]⟩
      · exact Or.inr ⟨ts, List.mem_cons_of_mem e hts⟩
    · rintro (hg | ⟨ts, hts⟩)
      · exact Or.inl (Or.inl hg)
      · rcases List.mem_cons.mp hts with he | hr
        · exact Or.inl (Or.inr (by rw [← he]))
        · exact Or.inr ⟨ts, hr⟩

theorem mem_foldGeo (srcs : List (String × List String)) (g : GeoAcc)
    (k t : String) :
    t ∈ ((srcs.foldl stepGeoSrc g) k).getD [] ↔
      t ∈ (g k).getD [] ∨ ∃ ts, (k, ts) ∈ srcs ∧ t ∈ ts := by
  induction srcs generalizing g with
  | nil => simp
  | cons e rest ih =>
    rw [List.foldl_cons, ih, stepGeoSrc_mem]
    constructor
    · rintro ((hg | ⟨hk, ht⟩) | ⟨ts, hts, ht⟩)
      · exact Or.inl hg
      · exact Or.inr ⟨e.2, by simp [hk], ht⟩
      · exact Or.inr ⟨ts, List.mem_cons_of_mem e hts, ht⟩
    · rintro (hg | ⟨ts, hts, ht⟩)
      · exact Or.inl (Or.inl hg)
      · rcases List.mem_cons.mp hts with he | hr
        · refine Or.inl (Or.inr ⟨by rw [← he], ?_⟩)
          have hts2 : ts = e.2 := by rw [← he]
          exact hts2 ▸ ht
        · exact Or.inr ⟨ts, hr, ht⟩

theorem nodup_foldGeo (srcs : List (String × List String)) (g : GeoAcc)
    (hg : ∀ k l, g k = some l → l.Nodup) :
    ∀ k l, (srcs.foldl stepGeoSrc g) k = some l → l.Nodup := by
  induction srcs generalizing g with
  | nil => exact hg
  | cons e rest ih =>
    rw [List.foldl_cons]
    refine ih _ ?_
    intro k l hl
    unfold stepGeoSrc at hl
    split at hl
    · obtain rfl := Option.some.inj hl
      apply nodup_addAll
      cases he : g e.1 with
      | none => simp [he]
      | some l0 =>
        simp only [he, Option.getD_some]
        exact hg e.1 l0 he
    · exact hg k l hl

/-- The region Set behind a flat accumulator entry, empty otherwise. -/
def accFlatList (acc : ProfAcc) (p : String) : List String :=
  match acc p with
  | some (.fs s) => s
  | _ => []

/-- The source map behind a geo accumulator entry, empty otherwise. -/
def accGeoFun (acc : ProfAcc) (p : String) : GeoAcc :=
  match acc p with
  | some (.gs g) => g
  | _ => fun _ => none

/-- The accumulator holds a flat entry at `p`. -/
def accIsFlat (acc : ProfAcc) (p : String) : Prop :=
  ∃ s, acc p = some (.fs s)

/-- The region is in the flat entry accumulated at `p`. -/
def accFlatMem (acc : ProfAcc) (p x : String) : Prop :=
  ∃ s, acc p = some (.fs s) ∧ x ∈ s

/-- The accumulator holds a geo entry at `p`. -/
def accIsGeo (acc : ProfAcc) (p : String) : Prop :=
  ∃ g, acc p = some (.gs g)

/-- The geo entry accumulated at `p` has an entry for source `src`. -/
def accGeoDom (acc : ProfAcc) (p src : String) : Prop :=
  ∃ g, acc p = some (.gs g) ∧ (g src).isSome = true

/-- The target is in the `src` list of the geo entry accumulated at `p`. -/
def accGeoMem (acc : ProfAcc) (p src t : String) : Prop :=
  ∃ g, acc p = some (.gs g) ∧ t ∈ (g src).getD []

theorem accFlatMem_iff_mem (acc : ProfAcc) (p x : String) :
    accFlatMem acc p x ↔ x ∈ accFlatList acc p := by
  unfold accFlatMem accFlatList
  cases h : acc p with
  | none => simp
  | some e => cases e <;> simp

theorem accGeoDom_iff_isSome (acc : ProfAcc) (p src : String) :
    accGeoDom acc p src ↔ ((accGeoFun acc p) src).isSome = true := by
  unfold accGeoDom accGeoFun
  cases h : acc p with
  | none => simp
  | some e => cases e <;> simp

theorem accGeoMem_iff_mem (acc : ProfAcc) (p src t : String) :
    accGeoMem acc p src t ↔ t ∈ ((accGeoFun acc p) src).getD [] := by
  unfold accGeoMem accGeoFun
  cases h : acc p with
  | none => simp
  | some e => cases e <;> simp

theorem stepProf_apply_ne (acc : ProfAcc) (pt : String × Topology)
    {p : String} (h : p ≠ pt.1) : stepProf acc pt p = acc p := by
  simp [stepProf, h]

theorem stepProf_apply_eq (acc : ProfAcc) (pt : String × Topology) :
    stepProf acc pt pt.1 = some (mergeTopo (acc pt.1) pt.2) := by
  simp [stepProf]

/-- Under shape consistency, one merge step writes the expected entry: a
flat contribution extends the accumulated Set, a geo contribution extends
the accumulated source map. -/
theorem stepProf_char {σ : String → Bool} {acc : ProfAcc}
    {pt : String × Topology} (hacc : AccOk σ acc)
    (hpt : topoIsFlat pt.2 = σ pt.1) (p : String) :
    stepProf acc pt p =
      if p = pt.1 then
        match pt.2 with
        | .flat rs => some (.fs (addAll (accFlatList acc p) rs))
        | .geo ss => some (.gs (ss.foldl stepGeoSrc (accGeoFun acc p)))
      else acc p := by
  by_cases hp : p = pt.1
  · subst hp
    rw [if_pos rfl, stepProf_apply_eq]
    cases ht : pt.2 with
    | flat rs =>
      rw [ht] at hpt
      simp only [topoIsFlat] at hpt
      cases hap : acc pt.1 with
      | none => simp [mergeTopo, hap, accFlatList]
      | some e =>
        cases e with
        | fs s => simp [mergeTopo, hap, accFlatList]
        | gs g =>
          have hσ := (hacc pt.1).2 g hap
          rw [hσ] at hpt
          cases hpt
    | geo ss =>
      rw [ht] at hpt
      simp only [topoIsFlat] at hpt
      cases hap : acc pt.1 with
      | none => simp [mergeTopo, hap, accGeoFun]
      | some e =>
        cases e with
        | gs g => simp [mergeTopo, hap, accGeoFun]
        | fs s =>
          have hσ := (hacc pt.1).1 s hap
          rw [hσ] at hpt
          cases hpt
  · rw [if_neg hp, stepProf_apply_ne acc pt hp]

theorem accOk_stepProf {σ : String → Bool} {acc : ProfAcc}
    {pt : String × Topology} (hacc : AccOk σ acc)
    (hpt : topoIsFlat pt.2 = σ pt.1) : AccOk σ (stepProf acc pt) := by
  intro p
  rw [stepProf_char hacc hpt p] at *
  by_cases hp : p = pt.1
  · rw [if_pos hp]
    cases ht : pt.2 with
    | flat rs =>
      refine ⟨fun s hs => ?_, fun g hg => ?_⟩
      · rw [← hp, ht] at hpt
        simpa [topoIsFlat] using hpt.symm
      · simp at hg
    | geo ss =>
      refine ⟨fun s hs => ?_, fun g hg => ?_⟩
      · simp at hs
      · rw [← hp, ht] at hpt
        simpa [topoIsFlat] using hpt.symm
  · rw [if_neg hp]
    exact hacc p

/-- The entry list contributes a flat topology for profile `p`. -/
def listFlat (l : List (String × Topology)) (p : String) : Prop :=
  ∃ rs, (p, Topology.flat rs) ∈ l

/-- The entry list contributes `x` to the flat topology of profile `p`. -/
def listFlatMem (l : List (String × Topology)) (p x : String) : Prop :=
  ∃ rs, (p, Topology.flat rs) ∈ l ∧ x ∈ rs

/-- The entry list contributes a geo topology for profile `p`. -/
def listGeo (l : List (String × Topology)) (p : String) : Prop :=
  ∃ ss, (p, Topology.geo ss) ∈ l

/-- The entry list contributes source `src` to the geo topology of `p`. -/
def listGeoDom (l : List (String × Topology)) (p src : String) : Prop :=
  ∃ ss, (p, Topology.geo ss) ∈ l ∧ ∃ ts, (src, ts) ∈ ss

/-- The entry list contributes target `t` under source `src` to the geo
topology of `p`. -/
def listGeoMem (l : List (String × Topology)) (p src t : String) : Prop :=
  ∃ ss, (p, Topology.geo ss) ∈ l ∧ ∃ ts, (src, ts) ∈ ss ∧ t ∈ ts

theorem listFlat_cons {pt : String × Topology}
    {rest : List (String × Topology)} {p : String} :
    listFlat (pt :: rest) p ↔
      (pt.1 = p ∧ ∃ rs, pt.2 = Topology.flat rs) ∨ listFlat rest p := by
  unfold listFlat
  constructor
  · rintro ⟨rs, hm⟩
    rcases List.mem_cons.mp hm with he | hr
    · have h1 := congrArg Prod.fst he
      have h2 := congrArg Prod.snd he
      exact Or.inl ⟨h1.symm, rs, h2.symm⟩
    · exact Or.inr ⟨rs, hr⟩
  · rintro (⟨h1, rs, h2⟩ | ⟨rs, hr⟩)
    · refine ⟨rs, List.mem_cons.mpr (Or.inl ?_)⟩
      rw [← h1, ← h2]
    · exact ⟨rs, List.mem_cons_of_mem pt hr⟩

theorem listFlatMem_cons {pt : String × Topology}
    {rest : List (String × Topology)} {p x : String} :
    listFlatMem (pt :: rest) p x ↔
      (pt.1 = p ∧ ∃ rs, pt.2 = Topology.flat rs ∧ x ∈ rs) ∨
        listFlatMem rest p x := by
  unfold listFlatMem
  constructor
  · rintro ⟨rs, hm, hx⟩
    rcases List.mem_cons.mp hm with he | hr
    · have h1 := congrArg Prod.fst he
      have h2 := congrArg Prod.snd he
      exact Or.inl ⟨h1.symm, rs, h2.symm, hx⟩
    · exact Or.inr ⟨rs, hr, hx⟩
  · rintro (⟨h1, rs, h2, hx⟩ | ⟨rs, hr, hx⟩)
    · refine ⟨rs, List.mem_cons.mpr (Or.inl ?_), hx⟩
      rw [← h1, ← h2]
    · exact ⟨rs, List.mem_cons_of_mem pt hr, hx⟩

theorem listGeo_cons {pt : String × Topology}
    {rest : List (String × Topology)} {p : String} :
    listGeo (pt :: rest) p ↔
      (pt.1 = p ∧ ∃ ss, pt.2 = Topology.geo ss) ∨ listGeo rest p := by
  unfold listGeo
  constructor
  · rintro ⟨ss, hm⟩
    rcases List.mem_cons.mp hm with he | hr
    · have h1 := congrArg Prod.fst he
      have h2 := congrArg Prod.snd he
      exact Or.inl ⟨h1.symm, ss, h2.symm⟩
    · exact Or.inr ⟨ss, hr⟩
  · rintro (⟨h1, ss, h2⟩ | ⟨ss, hr⟩)
    · refine ⟨ss, List.mem_cons.mpr (Or.inl ?_)⟩
      rw [← h1, ← h2]
    · exact ⟨ss, List.mem_cons_of_mem pt hr⟩

theorem listGeoDom_cons {pt : String × Topology}
    {rest : List (String × Topology)} {p src : String} :
    listGeoDom (pt :: rest) p src ↔
      (pt.1 = p ∧ ∃ ss, pt.2 = Topology.geo ss ∧ ∃ ts, (src, ts) ∈ ss) ∨
        listGeoDom rest p src := by
  unfold listGeoDom
  constructor
  · rintro ⟨ss, hm, hts⟩
    rcases List.mem_cons.mp hm with he | hr
    · have h1 := congrArg Prod.fst he
      have h2 := congrArg Prod.snd he
      exact Or.inl ⟨h1.symm, ss, h2.symm, hts⟩
    · exact Or.inr ⟨ss, hr, hts⟩
  · rintro (⟨h1, ss, h2, hts⟩ | ⟨ss, hr, hts⟩)
    · refine ⟨ss, List.mem_cons.mpr (Or.inl ?_), hts⟩
      rw [← h1, ← h2]
    · exact ⟨ss, List.mem_cons_of_mem pt hr, hts⟩

theorem listGeoMem_cons {pt : String × Topology}
    {rest : List (String × Topology)} {p src t : String} :
    listGeoMem (pt :: rest) p src t ↔
      (pt.1 = p ∧ ∃ ss, pt.2 = Topology.geo ss ∧
          ∃ ts, (src, ts) ∈ ss ∧ t ∈ ts) ∨
        listGeoMem rest p src t := by
  unfold listGeoMem
  constructor
  · rintro ⟨ss, hm, hts⟩
    rcases List.mem_cons.mp hm with he | hr
    · have h1 := congrArg Prod.fst he
      have h2 := congrArg Prod.snd he
      exact Or.inl ⟨h1.symm, ss, h2.symm, hts⟩
    · exact Or.inr ⟨ss, hr, hts⟩
  · rintro (⟨h1, ss, h2, hts⟩ | ⟨ss, hr, hts⟩)
    · refine ⟨ss, List.mem_cons.mpr (Or.inl ?_), hts⟩
      rw [← h1, ← h2]
    · exact ⟨ss, List.mem_cons_of_mem pt hr, hts⟩

theorem accIsFlat_stepProf {σ : String → Bool} {acc : ProfAcc}
    {pt : String × Topology} (hacc : AccOk σ acc)
    (hpt : topoIsFlat pt.2 = σ pt.1) (p : String) :
    accIsFlat (stepProf acc pt) p ↔
      accIsFlat acc p ∨ (pt.1 = p ∧ ∃ rs, pt.2 = Topology.flat rs) := by
  by_cases hp : p = pt.1
  · subst hp
    cases ht : pt.2 with
    | flat rs =>
      constructor
      · intro _
        exact Or.inr ⟨rfl, rs, rfl⟩
      · intro _
        refine ⟨addAll (accFlatList acc pt.1) rs, ?_⟩
        rw [stepProf_char hacc hpt pt.1, if_pos rfl, ht]
    | geo ss =>
      constructor
      · rintro ⟨s, hs⟩
        rw [stepProf_char hacc hpt pt.1, if_pos rfl, ht] at hs
        simp at hs
      · rintro (⟨s, hs⟩ | ⟨_, rs, hrs⟩)
        · have h1 := (hacc pt.1).1 s hs
          rw [ht] at hpt
          simp only [topoIsFlat] at hpt
          rw [h1] at hpt
          cases hpt
        · cases hrs
  · unfold accIsFlat
    rw [stepProf_apply_ne acc pt hp]
    constructor
    · exact Or.inl
    · rintro (h | ⟨heq, _⟩)
      · exact h
      · exact absurd heq.symm hp

theorem accFlatMem_stepProf {σ : String → Bool} {acc : ProfAcc}
    {pt : String × Topology} (hacc : AccOk σ acc)
    (hpt : topoIsFlat pt.2 = σ pt.1) (p x : String) :
    accFlatMem (stepProf acc pt) p x ↔
      accFlatMem acc p x ∨
        (pt.1 = p ∧ ∃ rs, pt.2 = Topology.flat rs ∧ x ∈ rs) := by
  by_cases hp : p = pt.1
  · subst hp
    cases ht : pt.2 with
    | flat rs =>
      have hL : accFlatList (stepProf acc pt) pt.1 =
          addAll (accFlatList acc pt.1) rs := by
        unfold accFlatList
        rw [stepProf_char hacc hpt pt.1, if_pos rfl, ht]
        rfl
      rw [accFlatMem_iff_mem, hL, mem_addAll, ← accFlatMem_iff_mem]
      constructor
      · rintro (h | h)
        · exact Or.inl h
        · exact Or.inr ⟨rfl, rs, rfl, h⟩
      · rintro (h | ⟨_, rs2, hrs2, h⟩)
        · exact Or.inl h
        · injection hrs2 with h2
          subst h2
          exact Or.inr h
    | geo ss =>
      have hL : accFlatList (stepProf acc pt) pt.1 = [] := by
        unfold accFlatList
        rw [stepProf_char hacc hpt pt.1, if_pos rfl, ht]
      rw [accFlatMem_iff_mem, hL]
      constructor
      · intro h
        cases h
      · rintro (⟨s, hs, _⟩ | ⟨_, rs2, hrs2, _⟩)
        · have h1 := (hacc pt.1).1 s hs
          rw [ht] at hpt
          simp only [topoIsFlat] at hpt
          rw [h1] at hpt
          cases hpt
        · cases hrs2
  · unfold accFlatMem
    rw [stepProf_apply_ne acc pt hp]
    constructor
    · exact Or.inl
    · rintro (h | ⟨heq, _⟩)
      · exact h
      · exact absurd heq.symm hp

theorem accIsGeo_stepProf {σ : String → Bool} {acc : ProfAcc}
    {pt : String × Topology} (hacc : AccOk σ acc)
    (hpt : topoIsFlat pt.2 = σ pt.1) (p : String) :
    accIsGeo (stepProf acc pt) p ↔
      accIsGeo acc p ∨ (pt.1 = p ∧ ∃ ss, pt.2 = Topology.geo ss) := by
  by_cases hp : p = pt.1
  · subst hp
    cases ht : pt.2 with
    | geo ss =>
      constructor
      · intro _
        exact Or.inr ⟨rfl, ss, rfl⟩
      · intro _
        refine ⟨ss.foldl stepGeoSrc (accGeoFun acc pt.1), ?_⟩
        rw [stepProf_char hacc hpt pt.1, if_pos rfl, ht]
    | flat rs =>
      constructor
      · rintro ⟨g, hg⟩
        rw [stepProf_char hacc hpt pt.1, if_pos rfl, ht] at hg
        simp at hg
      · rintro (⟨g, hg⟩ | ⟨_, ss, hss⟩)
        · have h1 := (hacc pt.1).2 g hg
          rw [ht] at hpt
          simp only [topoIsFlat] at hpt
          rw [h1] at hpt
          cases hpt
        · cases hss
  · unfold accIsGeo
    rw [stepProf_apply_ne acc pt hp]
    constructor
    · exact Or.inl
    · rintro (h | ⟨heq, _⟩)
      · exact h
      · exact absurd heq.symm hp

theorem accGeoDom_stepProf {σ : String → Bool} {acc : ProfAcc}
    {pt : String × Topology} (hacc : AccOk σ acc)
    (hpt : topoIsFlat pt.2 = σ pt.1) (p src : String) :
    accGeoDom (stepProf acc pt) p src ↔
      accGeoDom acc p src ∨
        (pt.1 = p ∧ ∃ ss, pt.2 = Topology.geo ss ∧ ∃ ts, (src, ts) ∈ ss) := by
  by_cases hp : p = pt.1
  · subst hp
    cases ht : pt.2 with
    | geo ss =>
      have hG : accGeoFun (stepProf acc pt) pt.1 =
          ss.foldl stepGeoSrc (accGeoFun acc pt.1) := by
        unfold accGeoFun
        rw [stepProf_char hacc hpt pt.1, if_pos rfl, ht]
        rfl
      rw [accGeoDom_iff_isSome, hG, isSome_foldGeo, ← accGeoDom_iff_isSome]
      constructor
      · rintro (h | ⟨ts, hts⟩)
        · exact Or.inl h
        · exact Or.inr ⟨rfl, ss, rfl, ts, hts⟩
      · rintro (h | ⟨_, ss2, hss2, ts, hts⟩)
        · exact Or.inl h
        · injection hss2 with h2
          subst h2
          exact Or.inr ⟨ts, hts⟩
    | flat rs =>
      have hG : accGeoFun (stepProf acc pt) pt.1 = fun _ => none := by
        unfold accGeoFun
        rw [stepProf_char hacc hpt pt.1, if_pos rfl, ht]
      rw [accGeoDom_iff_isSome, hG]
      constructor
      · intro h
        cases h
      · rintro (⟨g, hg, _⟩ | ⟨_, ss2, hss2, _⟩)
        · have h1 := (hacc pt.1).2 g hg
          rw [ht] at hpt
          simp only [topoIsFlat] at hpt
          rw [h1] at hpt
          cases hpt
        · cases hss2
  · unfold accGeoDom
    rw [stepProf_apply_ne acc pt hp]
    constructor
    · exact Or.inl
    · rintro (h | ⟨heq, _⟩)
      · exact h
      · exact absurd heq.symm hp

theorem accGeoMem_stepProf {σ : String → Bool} {acc : ProfAcc}
    {pt : String × Topology} (hacc : AccOk σ acc)
    (hpt : topoIsFlat pt.2 = σ pt.1) (p src t : String) :
    accGeoMem (stepProf acc pt) p src t ↔
      accGeoMem acc p src t ∨
        (pt.1 = p ∧ ∃ ss, pt.2 = Topology.geo ss ∧
          ∃ ts, (src, ts) ∈ ss ∧ t ∈ ts) := by
  by_cases hp : p = pt.1
  · subst hp
    cases ht : pt.2 with
    | geo ss =>
      have hG : accGeoFun (stepProf acc pt) pt.1 =
          ss.foldl stepGeoSrc (accGeoFun acc pt.1) := by
        unfold accGeoFun
        rw [stepProf_char hacc hpt pt.1, if_pos rfl, ht]
        rfl
      rw [accGeoMem_iff_mem, hG, mem_foldGeo, ← accGeoMem_iff_mem]
      constructor
      · rintro (h | ⟨ts, hts, hmem⟩)
        · exact Or.inl h
        · exact Or.inr ⟨rfl, ss, rfl, ts, hts, hmem⟩
      · rintro (h | ⟨_, ss2, hss2, ts, hts, hmem⟩)
        · exact Or.inl h
        · injection hss2 with h2
          subst h2
          exact Or.inr ⟨ts, hts, hmem⟩
    | flat rs =>
      have hG : accGeoFun (stepProf acc pt) pt.1 = fun _ => none := by
        unfold accGeoFun
        rw [stepProf_char hacc hpt pt.1, if_pos rfl, ht]
      rw [accGeoMem_iff_mem, hG]
      constructor
      · intro h
        cases h
      · rintro (⟨g, hg, _⟩ | ⟨_, ss2, hss2, _⟩)
        · have h1 := (hacc pt.1).2 g hg
          rw [ht] at hpt
          simp only [topoIsFlat] at hpt
          rw [h1] at hpt
          cases hpt
        · cases hss2
  · unfold accGeoMem
    rw [stepProf_apply_ne acc pt hp]
    constructor
    · exact Or.inl
    · rintro (h | ⟨heq, _⟩)
      · exact h
      · exact absurd heq.symm hp

theorem accOk_foldProf {σ : String → Bool} {l : List (String × Topology)}
    {acc : ProfAcc} (hacc : AccOk σ acc)
    (hl : ∀ pt ∈ l, topoIsFlat pt.2 = σ pt.1) :
    AccOk σ (l.foldl stepProf acc) := by
  induction l generalizing acc with
  | nil => exact hacc
  | cons pt rest ih =>
    rw [List.foldl_cons]
    exact ih (accOk_stepProf hacc (hl pt (List.mem_cons_self pt rest)))
      (fun q hq => hl q (List.mem_cons_of_mem pt hq))

theorem accIsFlat_foldProf {σ : String → Bool} {l : List (String × Topology)}
    {acc : ProfAcc} (hacc : AccOk σ acc)
    (hl : ∀ pt ∈ l, topoIsFlat pt.2 = σ pt.1) (p : String) :
    accIsFlat (l.foldl stepProf acc) p ↔ accIsFlat acc p ∨ listFlat l p := by
  induction l generalizing acc with
  | nil => simp [listFlat]
  | cons pt rest ih =>
    rw [List.foldl_cons,
      ih (accOk_stepProf hacc (hl pt (List.mem_cons_self pt rest)))
        (fun q hq => hl q (List.mem_cons_of_mem pt hq)),
      accIsFlat_stepProf hacc (hl pt (List.mem_cons_self pt rest)),
      listFlat_cons]
    exact or_assoc

theorem accFlatMem_foldProf {σ : String → Bool} {l : List (String × Topology)}
    {acc : ProfAcc} (hacc : AccOk σ acc)
    (hl : ∀ pt ∈ l, topoIsFlat pt.2 = σ pt.1) (p x : String) :
    accFlatMem (l.foldl stepProf acc) p x ↔
      accFlatMem acc p x ∨ listFlatMem l p x := by
  induction l generalizing acc with
  | nil => simp [listFlatMem]
  | cons pt rest ih =>
    rw [List.foldl_cons,
      ih (accOk_stepProf hacc (hl pt (List.mem_cons_self pt rest)))
        (fun q hq => hl q (List.mem_cons_of_mem pt hq)),
      accFlatMem_stepProf hacc (hl pt (List.mem_cons_self pt rest)),
      listFlatMem_cons]
    exact or_assoc

theorem accIsGeo_foldProf {σ : String → Bool} {l : List (String × Topology)}
    {acc : ProfAcc} (hacc : AccOk σ acc)
    (hl : ∀ pt ∈ l, topoIsFlat pt.2 = σ pt.1) (p : String) :
    accIsGeo (l.foldl stepProf acc) p ↔ accIsGeo acc p ∨ listGeo l p := by
  induction l generalizing acc with
  | nil => simp [listGeo]
  | cons pt rest ih =>
    rw [List.foldl_cons,
      ih (accOk_stepProf hacc (hl pt (List.mem_cons_self pt rest)))
        (fun q hq => hl q (List.mem_cons_of_mem pt hq)),
      accIsGeo_stepProf hacc (hl pt (List.mem_cons_self pt rest)),
      listGeo_cons]
    exact or_assoc

theorem accGeoDom_foldProf {σ : String → Bool} {l : List (String × Topology)}
    {acc : ProfAcc} (hacc : AccOk σ acc)
    (hl : ∀ pt ∈ l, topoIsFlat pt.2 = σ pt.1) (p src : String) :
    accGeoDom (l.foldl stepProf acc) p src ↔
      accGeoDom acc p src ∨ listGeoDom l p src := by
  induction l generalizing acc with
  | nil => simp [listGeoDom]
  | cons pt rest ih =>
    rw [List.foldl_cons,
      ih (accOk_stepProf hacc (hl pt (List.mem_cons_self pt rest)))
        (fun q hq => hl q (List.mem_cons_of_mem pt hq)),
      accGeoDom_stepProf hacc (hl pt (List.mem_cons_self pt rest)),
      listGeoDom_cons]
    exact or_assoc

theorem accGeoMem_foldProf {σ : String → Bool} {l : List (String × Topology)}
    {acc : ProfAcc} (hacc : AccOk σ acc)
    (hl : ∀ pt ∈ l, topoIsFlat pt.2 = σ pt.1) (p src t : String) :
    accGeoMem (l.foldl stepProf acc) p src t ↔
      accGeoMem acc p src t ∨ listGeoMem l p src t := by
  induction l generalizing acc with
  | nil => simp [listGeoMem]
  | cons pt rest ih =>
    rw [List.foldl_cons,
      ih (accOk_stepProf hacc (hl pt (List.mem_cons_self pt rest)))
        (fun q hq => hl q (List.mem_cons_of_mem pt hq)),
      accGeoMem_stepProf hacc (hl pt (List.mem_cons_self pt rest)),
      listGeoMem_cons]
    exact or_assoc

/-- The catalog contributes a flat topology for profile `p`. -/
def catFlat (cat : Catalog) (p : String) : Prop :=
  ∃ m ∈ cat, listFlat m.inferenceProfile p

/-- The catalog contributes `x` to the flat topology of profile `p`. -/
def catFlatMem (cat : Catalog) (p x : String) : Prop :=
  ∃ m ∈ cat, listFlatMem m.inferenceProfile p x

/-- The catalog contributes a geo topology for profile `p`. -/
def catGeo (cat : Catalog) (p : String) : Prop :=
  ∃ m ∈ cat, listGeo m.inferenceProfile p

/-- The catalog contributes source `src` to the geo topology of `p`. -/
def catGeoDom (cat : Catalog) (p src : String) : Prop :=
  ∃ m ∈ cat, listGeoDom m.inferenceProfile p src

/-- The catalog contributes target `t` under `src` to the geo topology of
`p`. -/
def catGeoMem (cat : Catalog) (p src t : String) : Prop :=
  ∃ m ∈ cat, listGeoMem m.inferenceProfile p src t

theorem accOk_foldCat {σ : String → Bool} {cat : Catalog} {acc : ProfAcc}
    (hacc : AccOk σ acc) (hcat : CatOk σ cat) :
    AccOk σ (cat.foldl stepModel acc) := by
  induction cat generalizing acc with
  | nil => exact hacc
  | cons m rest ih =>
    rw [List.foldl_cons]
    exact ih (accOk_foldProf hacc (hcat m (List.mem_cons_self m rest)))
      (fun q hq => hcat q (List.mem_cons_of_mem m hq))

theorem accIsFlat_foldCat {σ : String → Bool} {cat : Catalog} {acc : ProfAcc}
    (hacc : AccOk σ acc) (hcat : CatOk σ cat) (p : String) :
    accIsFlat (cat.foldl stepModel acc) p ↔
      accIsFlat acc p ∨ catFlat cat p := by
  induction cat generalizing acc with
  | nil => simp [catFlat]
  | cons m rest ih =>
    have hm := hcat m (List.mem_cons_self m rest)
    rw [List.foldl_cons,
      show stepModel acc m = m.inferenceProfile.foldl stepProf acc from rfl,
      ih (accOk_foldProf hacc hm)
        (fun q hq => hcat q (List.mem_cons_of_mem m hq)),
      accIsFlat_foldProf hacc hm]
    unfold catFlat
    simp only [List.mem_cons]
    constructor
    · rintro ((h | h) | ⟨m2, hm2, h2⟩)
      · exact Or.inl h
      · exact Or.inr ⟨m, Or.inl rfl, h⟩
      · exact Or.inr ⟨m2, Or.inr hm2, h2⟩
    · rintro (h | ⟨m2, (rfl | hm2), h2⟩)
      · exact Or.inl (Or.inl h)
      · exact Or.inl (Or.inr h2)
      · exact Or.inr ⟨m2, hm2, h2⟩

theorem accFlatMem_foldCat {σ : String → Bool} {cat : Catalog} {acc : ProfAcc}
    (hacc : AccOk σ acc) (hcat : CatOk σ cat) (p x : String) :
    accFlatMem (cat.foldl stepModel acc) p x ↔
      accFlatMem acc p x ∨ catFlatMem cat p x := by
  induction cat generalizing acc with
  | nil => simp [catFlatMem]
  | cons m rest ih =>
    have hm := hcat m (List.mem_cons_self m rest)
    rw [List.foldl_cons,
      show stepModel acc m = m.inferenceProfile.foldl stepProf acc from rfl,
      ih (accOk_foldProf hacc hm)
        (fun q hq => hcat q (List.mem_cons_of_mem m hq)),
      accFlatMem_foldProf hacc hm]
    unfold catFlatMem
    simp only [List.mem_cons]
    constructor
    · rintro ((h | h) | ⟨m2, hm2, h2⟩)
      · exact Or.inl h
      · exact Or.inr ⟨m, Or.inl rfl, h⟩
      · exact Or.inr ⟨m2, Or.inr hm2, h2⟩
    · rintro (h | ⟨m2, (rfl | hm2), h2⟩)
      · exact Or.inl (Or.inl h)
      · exact Or.inl (Or.inr h2)
      · exact Or.inr ⟨m2, hm2, h2⟩

theorem accIsGeo_foldCat {σ : String → Bool} {cat : Catalog} {acc : ProfAcc}
    (hacc : AccOk σ acc) (hcat : CatOk σ cat) (p : String) :
    accIsGeo (cat.foldl stepModel acc) p ↔
      accIsGeo acc p ∨ catGeo cat p := by
  induction cat generalizing acc with
  | nil => simp [catGeo]
  | cons m rest ih =>
    have hm := hcat m (List.mem_cons_self m rest)
    rw [List.foldl_cons,
      show stepModel acc m = m.inferenceProfile.foldl stepProf acc from rfl,
      ih (accOk_foldProf hacc hm)
        (fun q hq => hcat q (List.mem_cons_of_mem m hq)),
      accIsGeo_foldProf hacc hm]
    unfold catGeo
    simp only [List.mem_cons]
    constructor
    · rintro ((h | h) | ⟨m2, hm2, h2⟩)
      · exact Or.inl h
      · exact Or.inr ⟨m, Or.inl rfl, h⟩
      · exact Or.inr ⟨m2, Or.inr hm2, h2⟩
    · rintro (h | ⟨m2, (rfl | hm2), h2⟩)
      · exact Or.inl (Or.inl h)
      · exact Or.inl (Or.inr h2)
      · exact Or.inr ⟨m2, hm2, h2⟩

theorem accGeoDom_foldCat {σ : String → Bool} {cat : Catalog} {acc : ProfAcc}
    (hacc : AccOk σ acc) (hcat : CatOk σ cat) (p src : String) :
    accGeoDom (cat.foldl stepModel acc) p src ↔
      accGeoDom acc p src ∨ catGeoDom cat p src := by
  induction cat generalizing acc with
  | nil => simp [catGeoDom]
  | cons m rest ih =>
    have hm := hcat m (List.mem_cons_self m rest)
    rw [List.foldl_cons,
      show stepModel acc m = m.inferenceProfile.foldl stepProf acc from rfl,
      ih (accOk_foldProf hacc hm)
        (fun q hq => hcat q (List.mem_cons_of_mem m hq)),
      accGeoDom_foldProf hacc hm]
    unfold catGeoDom
    simp only [List.mem_cons]
    constructor
    · rintro ((h | h) | ⟨m2, hm2, h2⟩)
      · exact Or.inl h
      · exact Or.inr ⟨m, Or.inl rfl, h⟩
      · exact Or.inr ⟨m2, Or.inr hm2, h2⟩
    · rintro (h | ⟨m2, (rfl | hm2), h2⟩)
      · exact Or.inl (Or.inl h)
      · exact Or.inl (Or.inr h2)
      · exact Or.inr ⟨m2, hm2, h2⟩

theorem accGeoMem_foldCat {σ : String → Bool} {cat : Catalog} {acc : ProfAcc}
    (hacc : AccOk σ acc) (hcat : CatOk σ cat) (p src t : String) :
    accGeoMem (cat.foldl stepModel acc) p src t ↔
      accGeoMem acc p src t ∨ catGeoMem cat p src t := by
  induction cat generalizing acc with
  | nil => simp [catGeoMem]
  | cons m rest ih =>
    have hm := hcat m (List.mem_cons_self m rest)
    rw [List.foldl_cons,
      show stepModel acc m = m.inferenceProfile.foldl stepProf acc from rfl,
      ih (accOk_foldProf hacc hm)
        (fun q hq => hcat q (List.mem_cons_of_mem m hq)),
      accGeoMem_foldProf hacc hm]
    unfold catGeoMem
    simp only [List.mem_cons]
    constructor
    · rintro ((h | h) | ⟨m2, hm2, h2⟩)
      · exact Or.inl h
      · exact Or.inr ⟨m, Or.inl rfl, h⟩
      · exact Or.inr ⟨m2, Or.inr hm2, h2⟩
    · rintro (h | ⟨m2, (rfl | hm2), h2⟩)
      · exact Or.inl (Or.inl h)
      · exact Or.inl (Or.inr h2)
      · exact Or.inr ⟨m2, hm2, h2⟩

theorem accNodup_stepProf {acc : ProfAcc} {pt : String × Topology}
    (h : AccNodup acc) : AccNodup (stepProf acc pt) := by
  intro p
  by_cases hp : p = pt.1
  · subst hp
    constructor
    · intro s hs
      rw [stepProf_apply_eq] at hs
      have hm := Option.some.inj hs
      cases ht : pt.2 with
      | flat rs =>
        rw [ht] at hm
        cases hap : acc pt.1 with
        | none =>
          rw [hap] at hm
          simp only [mergeTopo] at hm
          injection hm with h2
          rw [← h2]
          exact nodup_addAll List.nodup_nil
        | some e =>
          cases e with
          | fs s0 =>
            rw [hap] at hm
            simp only [mergeTopo] at hm
            injection hm with h2
            rw [← h2]
            exact nodup_addAll ((h pt.1).1 s0 hap)
          | gs g0 =>
            rw [hap] at hm
            simp [mergeTopo] at hm
      | geo ss =>
        rw [ht] at hm
        cases hap : acc pt.1 with
        | none =>
          rw [hap] at hm
          simp [mergeTopo] at hm
        | some e =>
          cases e with
          | fs s0 =>
            rw [hap] at hm
            simp only [mergeTopo] at hm
            injection hm with h2
            rw [← h2]
            exact (h pt.1).1 s0 hap
          | gs g0 =>
            rw [hap] at hm
            simp [mergeTopo] at hm
    · intro g hg
      rw [stepProf_apply_eq] at hg
      have hm := Option.some.inj hg
      cases ht : pt.2 with
      | flat rs =>
        rw [ht] at hm
        cases hap : acc pt.1 with
        | none =>
          rw [hap] at hm
          simp [mergeTopo] at hm
        | some e =>
          cases e with
          | fs s0 =>
            rw [hap] at hm
            simp [mergeTopo] at hm
          | gs g0 =>
            rw [hap] at hm
            simp only [mergeTopo] at hm
            injection hm with h2
            rw [← h2]
            exact (h pt.1).2 g0 hap
      | geo ss =>
        rw [ht] at hm
        cases hap : acc pt.1 with
        | none =>
          rw [hap] at hm
          simp only [mergeTopo] at hm
          injection hm with h2
          rw [← h2]
          exact nodup_foldGeo ss _ (fun k l hl => by cases hl)
        | some e =>
          cases e with
          | fs s0 =>
            rw [hap] at hm
            simp [mergeTopo] at hm
          | gs g0 =>
            rw [hap] at hm
            simp only [mergeTopo] at hm
            injection hm with h2
            rw [← h2]
            exact nodup_foldGeo ss g0 ((h pt.1).2 g0 hap)
  · refine ⟨fun s hs => ?_, fun g hg => ?_⟩
    · rw [stepProf_apply_ne acc pt hp] at hs
      exact (h p).1 s hs
    · rw [stepProf_apply_ne acc pt hp] at hg
      exact (h p).2 g hg

theorem accNodup_foldProf {l : List (String × Topology)} {acc : ProfAcc}
    (h : AccNodup acc) : AccNodup (l.foldl stepProf acc) := by
  induction l generalizing acc with
  | nil => exact h
  | cons pt rest ih =>
    rw [List.foldl_cons]
    exact ih (accNodup_stepProf h)

theorem accNodup_foldCat {cat : Catalog} {acc : ProfAcc}
    (h : AccNodup acc) : AccNodup (cat.foldl stepModel acc) := by
  induction cat generalizing acc with
  | nil => exact h
  | cons m rest ih =>
    rw [List.foldl_cons]
    exact ih (accNodup_foldProf h)

theorem accOk_empty (σ : String → Bool) : AccOk σ (fun _ => none) := by
  intro p
  constructor <;> intro _ h <;> cases h

theorem accNodup_empty : AccNodup (fun _ => none) := by
  intro p
  constructor
  · intro _ h
    cases h
  · intro _ h
    cases h

theorem accNodup_aggAcc (cat : Catalog) : AccNodup (aggAcc cat) :=
  accNodup_foldCat accNodup_empty

theorem aggAcc_isFlat {σ : String → Bool} {cat : Catalog}
    (hcat : CatOk σ cat) (p : String) :
    accIsFlat (aggAcc cat) p ↔ catFlat cat p := by
  unfold aggAcc
  rw [accIsFlat_foldCat (accOk_empty σ) hcat]
  constructor
  · rintro (⟨s, hs⟩ | h)
    · cases hs
    · exact h
  · exact Or.inr

theorem aggAcc_flatMem {σ : String → Bool} {cat : Catalog}
    (hcat : CatOk σ cat) (p x : String) :
    accFlatMem (aggAcc cat) p x ↔ catFlatMem cat p x := by
  unfold aggAcc
  rw [accFlatMem_foldCat (accOk_empty σ) hcat]
  constructor
  · rintro (⟨s, hs, _⟩ | h)
    · cases hs
    · exact h
  · exact Or.inr

theorem aggAcc_isGeo {σ : String → Bool} {cat : Catalog}
    (hcat : CatOk σ cat) (p : String) :
    accIsGeo (aggAcc cat) p ↔ catGeo cat p := by
  unfold aggAcc
  rw [accIsGeo_foldCat (accOk_empty σ) hcat]
  constructor
  · rintro (⟨g, hg⟩ | h)
    · cases hg
    · exact h
  · exact Or.inr

theorem aggAcc_geoDom {σ : String → Bool} {cat : Catalog}
    (hcat : CatOk σ cat) (p src : String) :
    accGeoDom (aggAcc cat) p src ↔ catGeoDom cat p src := by
  unfold aggAcc
  rw [accGeoDom_foldCat (accOk_empty σ) hcat]
  constructor
  · rintro (⟨g, hg, _⟩ | h)
    · cases hg
    · exact h
  · exact Or.inr

theorem aggAcc_geoMem {σ : String → Bool} {cat : Catalog}
    (hcat : CatOk σ cat) (p src t : String) :
    accGeoMem (aggAcc cat) p src t ↔ catGeoMem cat p src t := by
  unfold aggAcc
  rw [accGeoMem_foldCat (accOk_empty σ) hcat]
  constructor
  · rintro (⟨g, hg, _⟩ | h)
    · cases hg
    · exact h
  · exact Or.inr

theorem sortRegions_sorted (s : List String) :
    (sortRegions s).Sorted (· ≤ ·) :=
  List.sorted_insertionSort (· ≤ ·) s

theorem sortRegions_nodup {s : List String} (h : s.Nodup) :
    (sortRegions s).Nodup :=
  (List.Perm.nodup_iff (List.perm_insertionSort (· ≤ ·) s)).mpr h

theorem sortRegions_eq_of_mem_iff {s1 s2 : List String} (h1 : s1.Nodup)
    (h2 : s2.Nodup) (hm : ∀ x, x ∈ s1 ↔ x ∈ s2) :
    sortRegions s1 = sortRegions s2 := by
  have hp : s1.Perm s2 := (List.perm_ext_iff_of_nodup h1 h2).mpr hm
  exact List.eq_of_perm_of_sorted
    ((List.perm_insertionSort (· ≤ ·) s1).trans
      (hp.trans (List.perm_insertionSort (· ≤ ·) s2).symm))
    (sortRegions_sorted s1) (sortRegions_sorted s2)

theorem accFlatMem_of_eq {acc : ProfAcc} {p : String} {s : List String}
    (h : acc p = some (.fs s)) (x : String) :
    accFlatMem acc p x ↔ x ∈ s := by
  unfold accFlatMem
  rw [h]
  constructor
  · rintro ⟨s2, hs2, hx⟩
    injection Option.some.inj hs2 with h2
    rw [h2]
    exact hx
  · intro hx
    exact ⟨s, rfl, hx⟩

theorem accGeoDom_of_eq {acc : ProfAcc} {p : String} {g : GeoAcc}
    (h : acc p = some (.gs g)) (src : String) :
    accGeoDom acc p src ↔ (g src).isSome = true := by
  unfold accGeoDom
  rw [h]
  constructor
  · rintro ⟨g2, hg2, hs⟩
    injection Option.some.inj hg2 with h2
    rw [h2]
    exact hs
  · intro hs
    exact ⟨g, rfl, hs⟩

theorem accGeoMem_of_eq {acc : ProfAcc} {p : String} {g : GeoAcc}
    (h : acc p = some (.gs g)) (src t : String) :
    accGeoMem acc p src t ↔ t ∈ (g src).getD [] := by
  unfold accGeoMem
  rw [h]
  constructor
  · rintro ⟨g2, hg2, hs⟩
    injection Option.some.inj hg2 with h2
    rw [h2]
    exact hs
  · intro hs
    exact ⟨g, rfl, hs⟩

theorem acc_none_iff (acc : ProfAcc) (p : String) :
    acc p = none ↔ ¬ accIsFlat acc p ∧ ¬ accIsGeo acc p := by
  cases h : acc p with
  | none => simp [accIsFlat, accIsGeo, h]
  | some e =>
    cases e with
    | fs s => simp [accIsFlat, accIsGeo, h]
    | gs g => simp [accIsFlat, accIsGeo, h]

/-- CLAIM C7: the Profile Aggregator is a pure, order-independent function
of the catalog — for shape-consistent data, permuting the iteration order
of the models yields the identical Profile Coverage Map — and every region
list in the map (the flat list of a GLOBAL-shaped profile, each source
region's target list of a geo-shaped profile) is sorted and
duplicate-free. -/
theorem aggregator_perm_invariant (σ : String → Bool) (cat1 cat2 : Catalog)
    (hok : CatOk σ cat1) (hperm : cat1.Perm cat2) :
    populateCrisRegions cat1 = populateCrisRegions cat2
    ∧ (∀ p rs, populateCrisRegions cat1 p = some (.flat rs) →
        rs.Sorted (· ≤ ·) ∧ rs.Nodup)
    ∧ (∀ p g src ts, populateCrisRegions cat1 p = some (.geo g) →
        g src = some ts → ts.Sorted (· ≤ ·) ∧ ts.Nodup) := by
  have hok2 : CatOk σ cat2 := fun m hm => hok m (hperm.mem_iff.mpr hm)
  have htrans : ∀ (P : ModelRec → Prop),
      (∃ m ∈ cat1, P m) ↔ (∃ m ∈ cat2, P m) := by
    intro P
    constructor
    · rintro ⟨m, hm, h⟩
      exact ⟨m, hperm.mem_iff.mp hm, h⟩
    · rintro ⟨m, hm, h⟩
      exact ⟨m, hperm.mem_iff.mpr hm, h⟩
  have hnd1 := accNodup_aggAcc cat1
  have hnd2 := accNodup_aggAcc cat2
  refine ⟨?_, ?_, ?_⟩
  · funext p
    show (aggAcc cat1 p).map finalizeEntry = (aggAcc cat2 p).map finalizeEntry
    cases h1 : aggAcc cat1 p with
    | none =>
      have h2 : aggAcc cat2 p = none := by
        rw [acc_none_iff] at h1 ⊢
        obtain ⟨hnf, hng⟩ := h1
        constructor
        · intro hf
          exact hnf ((aggAcc_isFlat hok p).mpr
            ((htrans _).mpr ((aggAcc_isFlat hok2 p).mp hf)))
        · intro hg
          exact hng ((aggAcc_isGeo hok p).mpr
            ((htrans _).mpr ((aggAcc_isGeo hok2 p).mp hg)))
      rw [h2]
    | some e1 =>
      cases e1 with
      | fs s1 =>
        have hflat2 : accIsFlat (aggAcc cat2) p :=
          (aggAcc_isFlat hok2 p).mpr
            ((htrans _).mp ((aggAcc_isFlat hok p).mp ⟨s1, h1⟩))
        obtain ⟨s2, h2⟩ := hflat2
        rw [h2]
        have hs12 : sortRegions s1 = sortRegions s2 := by
          apply sortRegions_eq_of_mem_iff ((hnd1 p).1 s1 h1) ((hnd2 p).1 s2 h2)
          intro x
          calc x ∈ s1
              ↔ accFlatMem (aggAcc cat1) p x := (accFlatMem_of_eq h1 x).symm
            _ ↔ catFlatMem cat1 p x := aggAcc_flatMem hok p x
            _ ↔ catFlatMem cat2 p x := htrans _
            _ ↔ accFlatMem (aggAcc cat2) p x := (aggAcc_flatMem hok2 p x).symm
            _ ↔ x ∈ s2 := accFlatMem_of_eq h2 x
        simp only [Option.map_some', finalizeEntry, hs12]
      | gs g1 =>
        have hgeo2 : accIsGeo (aggAcc cat2) p :=
          (aggAcc_isGeo hok2 p).mpr
            ((htrans _).mp ((aggAcc_isGeo hok p).mp ⟨g1, h1⟩))
        obtain ⟨g2, h2⟩ := hgeo2
        rw [h2]
        simp only [Option.map_some', finalizeEntry]
        have hfun : (fun src => (g1 src).map sortRegions) =
            (fun src => (g2 src).map sortRegions) := by
          funext src
          have hdom : ((g1 src).isSome = true) ↔ ((g2 src).isSome = true) := by
            calc (g1 src).isSome = true
                ↔ accGeoDom (aggAcc cat1) p src := (accGeoDom_of_eq h1 src).symm
              _ ↔ catGeoDom cat1 p src := aggAcc_geoDom hok p src
              _ ↔ catGeoDom cat2 p src := htrans _
              _ ↔ accGeoDom (aggAcc cat2) p src :=
                  (aggAcc_geoDom hok2 p src).symm
              _ ↔ (g2 src).isSome = true := accGeoDom_of_eq h2 src
          have hmem : ∀ t, t ∈ (g1 src).getD [] ↔ t ∈ (g2 src).getD [] := by
            intro t
            calc t ∈ (g1 src).getD []
                ↔ accGeoMem (aggAcc cat1) p src t :=
                  (accGeoMem_of_eq h1 src t).symm
              _ ↔ catGeoMem cat1 p src t := aggAcc_geoMem hok p src t
              _ ↔ catGeoMem cat2 p src t := htrans _
              _ ↔ accGeoMem (aggAcc cat2) p src t :=
                  (aggAcc_geoMem hok2 p src t).symm
              _ ↔ t ∈ (g2 src).getD [] := accGeoMem_of_eq h2 src t
          cases hg1s : g1 src with
          | none =>
            cases hg2s : g2 src with
            | none => rfl
            | some l2 =>
              rw [hg1s, hg2s] at hdom
              simp at hdom
          | some l1 =>
            cases hg2s : g2 src with
            | none =>
              rw [hg1s, hg2s] at hdom
              simp at hdom
            | some l2 =>
              have hl : sortRegions l1 = sortRegions l2 := by
                apply sortRegions_eq_of_mem_iff
                  ((hnd1 p).2 g1 h1 src l1 hg1s)
                  ((hnd2 p).2 g2 h2 src l2 hg2s)
                intro t
                have := hmem t
                rw [hg1s, hg2s] at this
                simpa using this
              simp [hl]
        rw [hfun]
  · intro p rs hrs
    have hrs2 : (aggAcc cat1 p).map finalizeEntry = some (.flat rs) := hrs
    cases h1 : aggAcc cat1 p with
    | none =>
      rw [h1] at hrs2
      cases hrs2
    | some e =>
      rw [h1] at hrs2
      simp only [Option.map_some'] at hrs2
      cases e with
      | fs s =>
        simp only [finalizeEntry] at hrs2
        injection hrs2 with h2
        injection h2 with h3
        rw [← h3]
        exact ⟨sortRegions_sorted s, sortRegions_nodup ((hnd1 p).1 s h1)⟩
      | gs g =>
        simp only [finalizeEntry] at hrs2
        cases hrs2
  · intro p g src ts hpg hsrc
    have hpg2 : (aggAcc cat1 p).map finalizeEntry = some (.geo g) := hpg
    cases h1 : aggAcc cat1 p with
    | none =>
      rw [h1] at hpg2
      cases hpg2
    | some e =>
      rw [h1] at hpg2
      simp only [Option.map_some'] at hpg2
      cases e with
      | fs s =>
        simp only [finalizeEntry] at hpg2
        cases hpg2
      | gs g0 =>
        simp only [finalizeEntry] at hpg2
        injection hpg2 with h2
        injection h2 with h3
        rw [← h3] at hsrc
        have hsrc2 : Option.map sortRegions (g0 src) = some ts := hsrc
        cases hg0 : g0 src with
        | none =>
          rw [hg0] at hsrc2
          cases hsrc2
        | some l =>
          rw [hg0] at hsrc2
          simp only [Option.map_some'] at hsrc2
          injection hsrc2 with h4
          rw [← h4]
          exact ⟨sortRegions_sorted l,
            sortRegions_nodup ((hnd1 p).2 g0 h1 src l hg0)⟩

/-- Witness catalog for C7: two models contributing to the same GLOBAL and
US profiles, aggregated in both orders. -/
def aggModelA : ModelRec :=
  { id := "prov.a-v1:0"
    regions := ["r1"]
    inference_types := [("r1", ["GLOBAL"])]
    inferenceProfile :=
      [("GLOBAL", .flat ["r1", "r2"]), ("US", .geo [("r1", ["r2"])])] }

def aggModelB : ModelRec :=
  { id := "prov.b-v1:0"
    regions := ["r2"]
    inference_types := [("r2", ["US"])]
    inferenceProfile :=
      [("GLOBAL", .flat ["r3"]), ("US", .geo [("r1", ["r3"])])] }

def aggShape : String → Bool := fun p => p == "GLOBAL"

theorem aggregator_perm_invariant_witness :
    (populateCrisRegions [aggModelA, aggModelB] =
        populateCrisRegions [aggModelB, aggModelA]
      ∧ (∀ p rs,
          populateCrisRegions [aggModelA, aggModelB] p = some (.flat rs) →
          rs.Sorted (· ≤ ·) ∧ rs.Nodup)
      ∧ (∀ p g src ts,
          populateCrisRegions [aggModelA, aggModelB] p = some (.geo g) →
          g src = some ts → ts.Sorted (· ≤ ·) ∧ ts.Nodup)) :=
  aggregator_perm_invariant aggShape [aggModelA, aggModelB]
    [aggModelB, aggModelA] (by unfold CatOk; decide)
    (List.Perm.swap aggModelB aggModelA [])

/-- The coverage filtering step of `showRegionMap`
(src/unnamed/part_000 lines 749-772): look up the aggregated profile data
for the CRIS type; when the model is found, keep a flat region only if the
model records the tag there, and keep a source of a geo map only if the
model records the tag at that source — target lists of surviving sources
are passed through unchanged. -/
def coverageFor (cat : Catalog) (crisType modelId : String) :
    Option CoverageEntry :=
  match populateCrisRegions cat crisType with
  | none => none
  | some pd =>
    match findModel cat modelId with
    | none => some pd
    | some model =>
      some (match pd with
        | .flat rs =>
          .flat (rs.filter (fun r => hasInferenceType model crisType (some r)))
        | .geo g =>
          .geo (fun src =>
            if hasInferenceType model crisType (some src) then g src
            else none))

/-- Target-list lookup in a geo coverage result. -/
def covGeoTargets (c : Option CoverageEntry) (src : String) :
    Option (List String) :=
  match c with
  | some (.geo g) => g src
  | _ => none

/-- The C8 counterexample model: the US profile dispatches from s1 to t1,
but the model carries the US tag only at s1, not at t1. -/
def covModel : ModelRec :=
  { id := "prov.cov-v1:0"
    regions := ["s1", "t1"]
    inference_types := [("s1", ["US"])]
    inferenceProfile := [("US", .geo [("s1", ["t1"])])] }

/-- CLAIM C8, counterexample: the filtered coverage keeps target t1 under
source s1 although the model does not carry the US tag at t1 — target
lists are not filtered by the per-region hasType check. -/
theorem coverageFor_keeps_unreachable_target :
    covGeoTargets (coverageFor [covModel] "US" "prov.cov-v1:0") "s1" =
      some ["t1"]
    ∧ "t1" ∈ ["t1"]
    ∧ hasInferenceType covModel "US" (some "t1") = false := by
  refine ⟨by decide, by decide, by decide⟩

/-- CLAIM C8 as amended: for a model found in the catalog, every region of
a filtered flat result and every surviving source of a filtered geo result
passes the per-region hasType check for the profile tag; target lists of
surviving sources are returned unfiltered. -/
theorem coverageFor_filters_sources (cat : Catalog)
    (crisType modelId : String) (model : ModelRec)
    (hm : findModel cat modelId = some model) :
    (∀ rs, coverageFor cat crisType modelId = some (.flat rs) →
        ∀ r ∈ rs, hasInferenceType model crisType (some r) = true)
    ∧ (∀ g, coverageFor cat crisType modelId = some (.geo g) →
        ∀ src ts, g src = some ts →
          hasInferenceType model crisType (some src) = true) := by
  constructor
  · intro rs hc r hr
    unfold coverageFor at hc
    cases hp : populateCrisRegions cat crisType with
    | none =>
      rw [hp] at hc
      cases hc
    | some pd =>
      rw [hp, hm] at hc
      cases pd with
      | flat rs0 =>
        have h2 := Option.some.inj hc
        injection h2 with h3
        rw [← h3] at hr
        exact (List.mem_filter.mp hr).2
      | geo g0 =>
        have h2 := Option.some.inj hc
        cases h2
  · intro g hc src ts hts
    unfold coverageFor at hc
    cases hp : populateCrisRegions cat crisType with
    | none =>
      rw [hp] at hc
      cases hc
    | some pd =>
      rw [hp, hm] at hc
      cases pd with
      | flat rs0 =>
        have h2 := Option.some.inj hc
        cases h2
      | geo g0 =>
        have h2 := Option.some.inj hc
        injection h2 with h3
        rw [← h3] at hts
        have hts2 : (if hasInferenceType model crisType (some src) then g0 src
            else none) = some ts := hts
        by_cases hb : hasInferenceType model crisType (some src) = true
        · exact hb
        · rw [if_neg hb] at hts2
          cases hts2

theorem coverageFor_filters_sources_witness :
    ((∀ rs, coverageFor [covModel] "US" "prov.cov-v1:0" = some (.flat rs) →
        ∀ r ∈ rs, hasInferenceType covModel "US" (some r) = true)
      ∧ (∀ g, coverageFor [covModel] "US" "prov.cov-v1:0" = some (.geo g) →
          ∀ src ts, g src = some ts →
            hasInferenceType covModel "US" (some src) = true)) :=
  coverageFor_filters_sources [covModel] "US" "prov.cov-v1:0" covModel
    (by decide)
